import Mathlib

/-!
# Verification of the in-browser tabular data explorer (admin DataGrid)

A shallow embedding of the client-side filter / sort / pagination /
column-visibility engine of the admin dashboard
(`src/admin-app/src/components/DataGrid.tsx`,
`src/admin-app/src/components/DataGrid/ColumnVisibilityToggle.tsx` and the
DataGrid `utils` helpers).

Rows are association lists from column names to dynamically typed values
(`Value`).  JavaScript strings are modelled as Lean `String`s, and the
JavaScript string operations used by the grid (`toLowerCase`, `trim`,
`includes`) are modelled character-wise so that every definition evaluates
inside the kernel.  JavaScript numbers appearing as row values are modelled
as integers (`Int`); the lenient decimal parser used by the quantity
comparator produces exact scaled decimals (`DecNum`).  `localeCompare` is
kept abstract: definitions that use it take a comparison function
`lc : String → String → Int` as a parameter.
-/

namespace PlantGrid

/-- Model of JavaScript `String.prototype.toLowerCase` (character-wise,
ASCII, which is exact on the grid's data). -/
def lowerStr (s : String) : String := ⟨s.data.map Char.toLower⟩

/-- Model of JavaScript `String.prototype.trim`: drop whitespace from both
ends. -/
def trimStr (s : String) : String :=
  ⟨((s.data.dropWhile Char.isWhitespace).reverse.dropWhile
      Char.isWhitespace).reverse⟩

/-- Does the second list occur as a prefix of the first? -/
def startsWithB : List Char → List Char → Bool
  | _, [] => true
  | [], _ :: _ => false
  | a :: as, b :: bs => a == b && startsWithB as bs

/-- Does `sub` occur as a contiguous substring of `hay`?  Model of
JavaScript `String.prototype.includes`. -/
def containsSub (hay sub : List Char) : Bool :=
  match hay with
  | [] => startsWithB ([] : List Char) sub
  | _ :: rest => startsWithB hay sub || containsSub rest sub

/-- `strContains s sub` models `s.includes(sub)`. -/
def strContains (s sub : String) : Bool := containsSub s.data sub.data

/-- JavaScript truthiness of `s.trim()` as used in the grid's guards. -/
def trimNonEmpty (s : String) : Bool := trimStr s != ""

/-- A dynamically typed cell value.  `vNull` covers both JavaScript `null`
and `undefined` (the grid treats them identically); `vNum` models the
integral numbers occurring in the data set. -/
inductive Value where
  | vBool (b : Bool)
  | vNum (n : Int)
  | vStr (s : String)
  | vNull
deriving DecidableEq, Repr

/-- A row is an association list from column name to value, in property
insertion order (`Object.values` enumerates in this order). -/
abbrev Row : Type := List (String × Value)

/-- `plant[column]`: a missing property reads as `undefined`, which the
grid treats like `null`, hence `vNull`. -/
def getField (r : Row) (c : String) : Value :=
  match List.lookup c r with
  | some v => v
  | none => Value.vNull

/-- `value === null || value === undefined`. -/
def isNullish : Value → Bool
  | Value.vNull => true
  | _ => false

/-- JavaScript `String(value)` for the non-null values the grid stringifies
(booleans print as `"true"`/`"false"`, integral numbers print in decimal).
The grid never stringifies a null/undefined value (it always guards
first), so the `vNull` case is arbitrary. -/
def jsToString : Value → String
  | Value.vBool b => if b then "true" else "false"
  | Value.vNum n => toString n
  | Value.vStr s => s
  | Value.vNull => ""

/-- `typeof value === 'boolean' || String(value).toLowerCase() === 'true'
|| String(value).toLowerCase() === 'false'` (utils `isBooleanValue`, also
inlined at DataGrid.tsx line 183). -/
def isBooleanValue (v : Value) : Bool :=
  match v with
  | Value.vBool _ => true
  | _ => lowerStr (jsToString v) == "true" || lowerStr (jsToString v) == "false"

/-- `value === true || String(value).toLowerCase() === 'true'`
(DataGrid.tsx line 184). -/
def jsToBool (v : Value) : Bool :=
  v == Value.vBool true || lowerStr (jsToString v) == "true"

/-- `query === 'yes' || query === 'true'` where `query` is the lower-cased
(untrimmed) filter text (DataGrid.tsx line 185). -/
def filterBoolOf (fv : String) : Bool :=
  lowerStr fv == "yes" || lowerStr fv == "true"

/-! ## Filter engine (DataGrid.tsx `filteredAndSortedPlants`, lines 161-193) -/

/-- One row passes the global search: some field value is non-null and its
lower-cased string form contains the lower-cased query
(DataGrid.tsx lines 167-171). -/
def rowMatchesGlobal (q : String) (r : Row) : Bool :=
  (r : List (String × Value)).any fun p =>
    !isNullish p.2 && strContains (lowerStr (jsToString p.2)) (lowerStr q)

/-- Apply the global search query when it is non-empty after trimming
(DataGrid.tsx lines 165-172).  Note the match itself uses the untrimmed
query, exactly as in the source. -/
def applyGlobal (q : String) (rows : List Row) : List Row :=
  if trimNonEmpty q then rows.filter (rowMatchesGlobal q) else rows

/-- The committed per-column predicate (DataGrid.tsx lines 178-191): a
null/undefined field never matches; a boolean-like field (native boolean
or `"true"`/`"false"` string) is compared by boolean coercion against the
filter text's `yes`/`true` reading; every other field is a case-insensitive
substring match. -/
def columnFilterPred (c fv : String) (r : Row) : Bool :=
  let value := getField r c
  if isNullish value then false
  else if isBooleanValue value then jsToBool value == filterBoolOf fv
  else strContains (lowerStr (jsToString value)) (lowerStr fv)

/-- Generic filter chain over the entries of a filter map
(`Object.entries(columnFilters).forEach(...)`): each entry whose guard
holds restricts the accumulated list. -/
def filterChainG (cond : String × String → Bool) (p : String → String → Row → Bool)
    (entries : List (String × String)) (rows : List Row) : List Row :=
  entries.foldl (fun acc e => if cond e then acc.filter (p e.1 e.2) else acc) rows

/-- Apply every committed column filter with a non-empty trimmed value
(DataGrid.tsx lines 175-193). -/
def applyColumnFilters (entries : List (String × String)) (rows : List Row) : List Row :=
  filterChainG (fun e => trimNonEmpty e.2) columnFilterPred entries rows

/-- The committed filter pipeline: global query, then the per-column
filters (DataGrid.tsx lines 161-193). -/
def applyFilters (rows : List Row) (q : String) (entries : List (String × String)) :
    List Row :=
  applyColumnFilters entries (applyGlobal q rows)

/-- `booleanColumns` (DataGrid.tsx lines 339-350): a column counts as
boolean for the UI when the first row's sample value is a native boolean.
With no rows the set is empty. -/
def booleanColumnFlag (rows : List Row) (c : String) : Bool :=
  match rows.head? with
  | some r =>
    match getField r c with
    | Value.vBool _ => true
    | _ => false
  | none => false

/-- The column kind described by the claim under scrutiny: inferred from a
sample (first-row) value by native boolean type or case-insensitive
`"true"`/`"false"` string match.  This follows the spec's words, for
comparison against the code's behaviour. -/
def claimBooleanKind (rows : List Row) (c : String) : Bool :=
  match rows.head? with
  | some r => isBooleanValue (getField r c)
  | none => false

/-! ## Live preview (ColumnVisibilityToggle.tsx `previewCount`, lines 327-371) -/

/-- The predicate the preview applies to the *other* committed filters
(lines 341-350): plain case-insensitive substring match, with no boolean
special case. -/
def previewTextPred (c fv : String) (r : Row) : Bool :=
  let v := getField r c
  !isNullish v && strContains (lowerStr (jsToString v)) (lowerStr fv)

/-- The predicate the preview applies to the edited column itself
(lines 353-368): boolean matching when the `isBoolean` prop is set,
substring matching otherwise. -/
def previewOwnPred (c lv : String) (isB : Bool) (r : Row) : Bool :=
  let v := getField r c
  if isNullish v then false
  else if isB then jsToBool v == filterBoolOf lv
  else strContains (lowerStr (jsToString v)) (lowerStr lv)

/-- `previewCount` (ColumnVisibilityToggle.tsx lines 327-371): the live
preview count while `localValue` is the uncommitted filter text for
`column`.  `otherFilters` is the committed per-column filter map and
`isB` the `isBoolean` prop (which DataGrid binds to
`booleanColumnFlag`). -/
def previewCount (rows : List Row) (searchQuery : String)
    (otherFilters : List (String × String)) (column localValue : String)
    (isB : Bool) : Nat :=
  let f1 := applyGlobal searchQuery rows
  let f2 := filterChainG (fun e => (e.1 != column) && trimNonEmpty e.2)
    previewTextPred otherFilters f1
  let f3 := if trimNonEmpty localValue then
    f2.filter (previewOwnPred column localValue isB) else f2
  f3.length

/-- `updated[column] = value` on a plain object: replace the binding when
the key is present, append it otherwise. -/
def setEntry (m : List (String × String)) (c v : String) : List (String × String) :=
  if m.any (fun e => e.1 == c) then
    m.map (fun e => if e.1 == c then (c, v) else e)
  else m ++ [(c, v)]

/-- `delete updated[column]` on a plain object. -/
def removeEntry (m : List (String × String)) (c : String) : List (String × String) :=
  m.filter (fun e => e.1 != c)

/-! ## Sort engine (DataGrid.tsx lines 195-234, utils `compareQtyValues`) -/

inductive Dir where
  | asc
  | desc
deriving DecidableEq, Repr

/-- An exact nonnegative decimal `mant / 10 ^ scale`, the result of the
lenient numeric extraction (the cleaned text has no sign or exponent). -/
structure DecNum where
  mant : Nat
  scale : Nat
deriving DecidableEq, Repr

/-- Numeric order on exact decimals, by cross multiplication. -/
def decLtB (a b : DecNum) : Bool := a.mant * 10 ^ b.scale < b.mant * 10 ^ a.scale

/-- Numeric equality on exact decimals, by cross multiplication. -/
def decEqB (a b : DecNum) : Bool := a.mant * 10 ^ b.scale == b.mant * 10 ^ a.scale

/-- Decimal digits to a natural number. -/
def digitsToNat (ds : List Char) : Nat :=
  ds.foldl (fun a c => a * 10 + (c.toNat - 48)) 0

/-- `parseFloat` restricted to strings of digits and dots (all the cleaned
text can contain): longest prefix of the form `digits [. digits]` or
`. digits`; `NaN` (here `none`) when no digit is consumed. -/
def parseDigitsDots (cs : List Char) : Option DecNum :=
  let intPart := cs.takeWhile Char.isDigit
  let rest := cs.drop intPart.length
  let fracPart :=
    if rest.head? == some '.' then (rest.drop 1).takeWhile Char.isDigit else []
  if intPart.isEmpty && fracPart.isEmpty then none
  else some ⟨digitsToNat intPart * 10 ^ fracPart.length + digitsToNat fracPart,
    fracPart.length⟩

/-- utils `extractNumber` (part_004 lines 52-57): discard every character
except digits and the decimal point, then `parseFloat`; `NaN` becomes
`none`. -/
def extractNumber (s : String) : Option DecNum :=
  parseDigitsDots (s.data.filter fun c => c.isDigit || c == '.')

/-- `a !== null && a !== undefined ? String(a) : ''` (part_004 lines
61-62). -/
def qtyStr (v : Value) : String := if isNullish v then "" else jsToString v

/-- utils `compareQtyValues` (part_004 lines 60-88).  `lc` models
`localeCompare`.  Only the sign of the JavaScript return value is
observable by the sort, so the numeric-difference branch returns the sign
of the exact difference. -/
def compareQtyValues (lc : String → String → Int) (a b : Value) (dir : Dir) : Int :=
  let aStr := qtyStr a
  let bStr := qtyStr b
  match extractNumber aStr, extractNumber bStr with
  | some x, some y =>
    if decEqB x y then lc aStr bStr
    else if dir = Dir.asc then (if decLtB x y then -1 else 1)
    else (if decLtB y x then -1 else 1)
  | some _, none => if dir = Dir.asc then -1 else 1
  | none, some _ => if dir = Dir.asc then 1 else -1
  | none, none => if dir = Dir.asc then lc aStr bStr else lc bStr aStr

/-- The sort comparator of `filteredAndSortedPlants` (DataGrid.tsx lines
197-233): null/undefined sorts last in either direction, the `qty` column
uses the quantity comparator, two numbers compare numerically, two
booleans order false before true ascending, and everything else falls back
to lower-cased `localeCompare`. -/
def rowCompare (lc : String → String → Int) (col : String) (dir : Dir)
    (a b : Row) : Int :=
  let aV := getField a col
  let bV := getField b col
  if isNullish aV then 1
  else if isNullish bV then -1
  else if col == "qty" then compareQtyValues lc aV bV dir
  else
    match aV, bV with
    | Value.vNum x, Value.vNum y => if dir = Dir.asc then x - y else y - x
    | Value.vBool x, Value.vBool y =>
      if dir = Dir.asc then (if x == y then 0 else if x then 1 else -1)
      else (if x == y then 0 else if x then -1 else 1)
    | _, _ =>
      let aS := lowerStr (jsToString aV)
      let bS := lowerStr (jsToString bV)
      if dir = Dir.asc then lc aS bS else lc bS aS

/-- Merge two lists by a boolean comparator, with explicit fuel so the
definition is structurally recursive (and hence kernel-evaluable). -/
def mergeF (le : α → α → Bool) : Nat → List α → List α → List α
  | 0, xs, ys => xs ++ ys
  | _ + 1, [], ys => ys
  | _ + 1, x :: xs, [] => x :: xs
  | n + 1, x :: xs, y :: ys =>
    if le x y then x :: mergeF le n xs (y :: ys)
    else y :: mergeF le n (x :: xs) ys

/-- Stable top-down merge sort with explicit fuel; with fuel at least the
length this is the classic stable merge sort, our model of
`Array.prototype.sort` (required stable by the language). -/
def mergeSortF (le : α → α → Bool) : Nat → List α → List α
  | 0, l => l
  | n + 1, l =>
    if l.length ≤ 1 then l
    else
      let half := l.length / 2
      mergeF le ((l.take half).length + (l.drop half).length)
        (mergeSortF le n (l.take half)) (mergeSortF le n (l.drop half))

/-- Stable merge sort by a boolean comparator. -/
def mergeSortBy (le : α → α → Bool) (l : List α) : List α :=
  mergeSortF le l.length l

/-- `applySort` (DataGrid.tsx lines 195-234): no sort state preserves the
filtered order; otherwise sort stably by the row comparator.  A row `a`
may precede `b` exactly when the comparator does not order `b` strictly
before `a`. -/
def applySort (lc : String → String → Int) (cfg : Option (String × Dir))
    (rows : List Row) : List Row :=
  match cfg with
  | none => rows
  | some (c, d) => mergeSortBy (fun a b => rowCompare lc c d a b ≤ 0) rows

/-! ## Pagination window (DataGrid.tsx lines 240-247) -/

/-- `ITEMS_PER_PAGE` (DataGrid.tsx line 28). -/
def ITEMS_PER_PAGE : Nat := 50

/-- `rows.slice(pageIndex * pageSize, (pageIndex + 1) * pageSize)`,
generalised over the page size (the source fixes it to
`ITEMS_PER_PAGE`). -/
def paginateWindow (pageSize pageIndex : Nat) (rows : List Row) : List Row :=
  (rows.drop (pageIndex * pageSize)).take pageSize

/-- `paginatedPlants` (DataGrid.tsx lines 240-244). -/
def paginatedPlants (pageIndex : Nat) (rows : List Row) : List Row :=
  paginateWindow ITEMS_PER_PAGE pageIndex rows

/-- `Math.ceil(rows.length / pageSize)` over the naturals. -/
def totalPagesOf (pageSize : Nat) (rows : List Row) : Nat :=
  (rows.length + pageSize - 1) / pageSize

/-- Ceiling division the way the spec states it, for comparison. -/
def ceilDivSpec (len pageSize : Nat) : Nat :=
  if len % pageSize = 0 then len / pageSize else len / pageSize + 1

/-! ## Sort toggle and the page-reset state machine -/

/-- `handleSort`'s update of `sortConfig` (DataGrid.tsx lines 249-262):
same column cycles asc → desc → cleared, a different column starts at
asc. -/
def handleSortCfg (cur : Option (String × Dir)) (col : String) :
    Option (String × Dir) :=
  match cur with
  | some (c, d) =>
    if c = col then
      (if d = Dir.asc then some (col, Dir.desc) else none)
    else some (col, Dir.asc)
  | none => some (col, Dir.asc)

/-- The UI state the DataGrid keeps in React state (the pieces relevant to
filtering, sorting, scope and pagination). -/
structure GridState where
  searchQuery : String
  columnFilters : List (String × String)
  sortConfig : Option (String × Dir)
  currentPage : Nat
  selectedDome : String
deriving DecidableEq

/-- The user actions that drive the state (each mirrors one handler in
DataGrid.tsx).  `nextPage` carries the current total page count used for
clamping. -/
inductive Action where
  | setQuery (q : String)
  | toggleSort (col : String)
  | setColumnFilter (c v : String)
  | clearColumnFilter (c : String)
  | setDome (d : String)
  | resetAll
  | nextPage (totalPages : Nat)
  | prevPage
deriving DecidableEq

/-- One step of the UI state machine, exactly as the handlers write React
state: search input `onChange` (lines 461-464), `handleSort` (249-262),
`handleColumnFilter` (264-277), `handleClearColumnFilter` (279-288), dome
select `onChange` (440-443), `resetAllFilters` (290-296), and the two
pagination buttons (498, 507). -/
def step (s : GridState) : Action → GridState
  | Action.setQuery q =>
    { s with searchQuery := q, currentPage := 0 }
  | Action.toggleSort col =>
    { s with sortConfig := handleSortCfg s.sortConfig col, currentPage := 0 }
  | Action.setColumnFilter c v =>
    { s with
      columnFilters :=
        if trimNonEmpty v then setEntry s.columnFilters c v
        else removeEntry s.columnFilters c,
      currentPage := 0 }
  | Action.clearColumnFilter c =>
    { s with columnFilters := removeEntry s.columnFilters c, currentPage := 0 }
  | Action.setDome d =>
    { s with selectedDome := d, currentPage := 0 }
  | Action.resetAll =>
    { s with
      searchQuery := ""
      columnFilters := []
      sortConfig := none
      currentPage := 0 }
  | Action.nextPage totalPages =>
    { s with currentPage := min (totalPages - 1) (s.currentPage + 1) }
  | Action.prevPage =>
    { s with currentPage := s.currentPage - 1 }

/-- Does the action change FilterState, SortState or the scope (as opposed
to a pure page navigation)? -/
def changesFilterSortOrScope : Action → Bool
  | Action.setQuery _ => true
  | Action.toggleSort _ => true
  | Action.setColumnFilter _ _ => true
  | Action.clearColumnFilter _ => true
  | Action.setDome _ => true
  | Action.resetAll => true
  | Action.nextPage _ => false
  | Action.prevPage => false

/-! ## Visibility preference store (ColumnVisibilityToggle.tsx lines 74-222) -/

/-- What `localStorage.getItem` + `JSON.parse` can yield for the visibility
key: nothing stored, unparseable data, the legacy bare array of visible
column names, or the current object map. -/
inductive StoredVis where
  | absent
  | corrupt
  | legacyArr (cols : List String)
  | objMap (m : List (String × Bool))
deriving DecidableEq

/-- The initial read (ColumnVisibilityToggle.tsx lines 83-107): a legacy
array is migrated to an object map (every listed column ↦ `true`) and the
migrated map is written back at once; a stored map is used as is; anything
else yields the empty map.  Returns the in-memory map together with the
value written during migration, if any. -/
def migrateStored : StoredVis → List (String × Bool) × Option (List (String × Bool))
  | StoredVis.absent => ([], none)
  | StoredVis.corrupt => ([], none)
  | StoredVis.legacyArr cols =>
    let migrated := cols.map (fun c => (c, true))
    (migrated, some migrated)
  | StoredVis.objMap m => (m, none)

/-- `stored[col] !== false` on the object map. -/
def storedShown (m : List (String × Bool)) (c : String) : Bool :=
  match List.lookup c m with
  | some false => false
  | _ => true

/-- `col in stored`. -/
def hasEntry (m : List (String × Bool)) (c : String) : Bool :=
  m.any (fun e => e.1 == c)

/-- One iteration of the first-load reconciliation loop
(ColumnVisibilityToggle.tsx lines 148-158): the column is visible unless
stored as `false`, and a column missing from the stored map is recorded
as `true`. -/
def reconcileStep (acc : List String × List (String × Bool)) (c : String) :
    List String × List (String × Bool) :=
  (if storedShown acc.2 c then acc.1 ++ [c] else acc.1,
   if hasEntry acc.2 c then acc.2 else acc.2 ++ [(c, true)])

/-- The first-load reconciliation loop (ColumnVisibilityToggle.tsx lines
144-170).  The resulting map is persisted.  Returns the visible columns
(in column order, as the `Set` is filled) and the persisted map. -/
def reconcileColumns (columns : List String) (m : List (String × Bool)) :
    List String × List (String × Bool) :=
  columns.foldl reconcileStep ([], m)

/-- The whole first load of the visibility preference for a non-empty
column list: parse/migrate the stored value, then reconcile against the
current columns and persist.  Returns the visible columns and the
persisted map. -/
def loadVisibility (stored : StoredVis) (columns : List String) :
    List String × List (String × Bool) :=
  reconcileColumns columns (migrateStored stored).1

/-! ## Auxiliary notions used by the theorem statements -/

/-- Every element marked by `w` comes after every unmarked element: no
marked element is followed by an unmarked one. -/
abbrev MarkedLast (w : α → Bool) (l : List α) : Prop :=
  l.Pairwise (fun a b => w a = true → w b = true)

/-- A concrete stand-in for `localeCompare` (plain code-unit order), used
to instantiate the abstract locale comparison in closed witnesses. -/
def lcDefault (a b : String) : Int :=
  if a < b then -1 else if b < a then 1 else 0

/-! ## Basic lemmas about the filter chain -/

theorem all_congr' {ε : Type _} {l : List ε} {f g : ε → Bool}
    (h : ∀ e ∈ l, f e = g e) : l.all f = l.all g := by
  induction l with
  | nil => rfl
  | cons e l ih =>
    simp only [List.all_cons]
    rw [h e (by simp), ih (fun x hx => h x (by simp [hx]))]

theorem filterChainG_eq_filter (cond : String × String → Bool)
    (p : String → String → Row → Bool) (entries : List (String × String))
    (rows : List Row) :
    filterChainG cond p entries rows =
      rows.filter (fun r => entries.all fun e => !cond e || p e.1 e.2 r) := by
  induction entries generalizing rows with
  | nil => simp [filterChainG]
  | cons e es ih =>
    simp only [filterChainG, List.foldl_cons] at ih ⊢
    by_cases hc : cond e = true
    · rw [if_pos hc, ih, List.filter_filter]
      refine List.filter_congr ?_
      intro r _
      simp [hc, Bool.and_comm]
    · rw [if_neg hc, ih]
      refine List.filter_congr ?_
      intro r _
      have hc' : cond e = false := by
        cases h : cond e
        · rfl
        · exact absurd h hc
      simp [hc']

theorem mem_filterChainG {cond : String × String → Bool}
    {p : String → String → Row → Bool} {entries : List (String × String)}
    {rows : List Row} {r : Row} :
    r ∈ filterChainG cond p entries rows ↔
      r ∈ rows ∧ ∀ e ∈ entries, cond e = true → p e.1 e.2 r = true := by
  rw [filterChainG_eq_filter, List.mem_filter]
  simp only [List.all_eq_true]
  refine and_congr_right fun _ => ⟨fun h e he hce => ?_, fun h e he => ?_⟩
  · have := h e he
    rwa [hce, Bool.not_true, Bool.false_or] at this
  · cases hce : cond e
    · simp
    · simpa using h e he hce

theorem mem_applyGlobal {q : String} {rows : List Row} {r : Row} :
    r ∈ applyGlobal q rows ↔
      r ∈ rows ∧ (trimNonEmpty q = true → rowMatchesGlobal q r = true) := by
  unfold applyGlobal
  by_cases h : trimNonEmpty q = true
  · simp [h, List.mem_filter]
  · have h' : trimNonEmpty q = false := by
      cases hq : trimNonEmpty q
      · rfl
      · exact absurd hq h
    simp [h']

theorem rowMatchesGlobal_iff {q : String} {r : Row} :
    rowMatchesGlobal q r = true ↔
      ∃ p ∈ (r : List (String × Value)), isNullish p.2 = false ∧
        strContains (lowerStr (jsToString p.2)) (lowerStr q) = true := by
  unfold rowMatchesGlobal
  rw [List.any_eq_true]
  constructor
  · rintro ⟨p, hp, h⟩
    refine ⟨p, hp, ?_, ?_⟩
    · cases hn : isNullish p.2
      · rfl
      · rw [hn] at h
        simp at h
    · simp only [Bool.and_eq_true] at h
      exact h.2
  · rintro ⟨p, hp, hn, hc⟩
    exact ⟨p, hp, by simp [hn, hc]⟩

theorem columnFilterPred_iff {c fv : String} {r : Row} :
    columnFilterPred c fv r = true ↔
      isNullish (getField r c) = false ∧
        (if isBooleanValue (getField r c) = true
         then jsToBool (getField r c) = filterBoolOf fv
         else strContains (lowerStr (jsToString (getField r c))) (lowerStr fv) = true) := by
  unfold columnFilterPred
  cases hn : isNullish (getField r c)
  · cases hb : isBooleanValue (getField r c) <;> simp [hn, hb]
  · simp [hn]

/-! ## C5 -/

/-- C5: for every row set, committed query and committed filter map, a row
is in `applyFilters` exactly when it is one of the input rows, passes the
(non-empty-after-trim) global query — i.e. some field is non-null and its
lower-cased string form contains the lower-cased query — and satisfies
every active per-column filter predicate. In particular the result is a
subset of the input. -/
theorem c5_applyFilters_membership (rows : List Row) (q : String)
    (entries : List (String × String)) (r : Row) :
    r ∈ applyFilters rows q entries ↔
      r ∈ rows ∧
      (trimNonEmpty q = true →
        ∃ p ∈ (r : List (String × Value)), isNullish p.2 = false ∧
          strContains (lowerStr (jsToString p.2)) (lowerStr q) = true) ∧
      ∀ e ∈ entries, trimNonEmpty e.2 = true → columnFilterPred e.1 e.2 r = true := by
  unfold applyFilters applyColumnFilters
  rw [mem_filterChainG, mem_applyGlobal]
  constructor
  · rintro ⟨⟨hr, hg⟩, hf⟩
    exact ⟨hr, fun ht => rowMatchesGlobal_iff.mp (hg ht), hf⟩
  · rintro ⟨hr, hg, hf⟩
    exact ⟨⟨hr, fun ht => rowMatchesGlobal_iff.mpr (hg ht)⟩, hf⟩

/-- Closed instance of C5's characterisation. -/
theorem c5_applyFilters_membership_witness :
    ([("name", Value.vStr "Fern")] : Row) ∈
        applyFilters [[("name", Value.vStr "Fern")]] "fe" [("name", "ER")] ↔
      ([("name", Value.vStr "Fern")] : Row) ∈ ([[("name", Value.vStr "Fern")]] : List Row) ∧
      (trimNonEmpty "fe" = true →
        ∃ p ∈ ([("name", Value.vStr "Fern")] : List (String × Value)),
          isNullish p.2 = false ∧
          strContains (lowerStr (jsToString p.2)) (lowerStr "fe") = true) ∧
      ∀ e ∈ [("name", "ER")], trimNonEmpty e.2 = true →
        columnFilterPred e.1 e.2 [("name", Value.vStr "Fern")] = true :=
  c5_applyFilters_membership [[("name", Value.vStr "Fern")]] "fe" [("name", "ER")]
    [("name", Value.vStr "Fern")]

/-! ## C1 -/

/-- C1 is refuted as stated: on a column whose first-row sample is the
string `"maybe"` (so the claim's inferred kind is not boolean), the claim
predicts that the filter `"ru"` keeps the row whose field is the string
`"true"` (non-null, case-insensitive substring match); the code instead
takes the per-value boolean branch for that row and drops it, leaving an
empty result. -/
theorem c1_claim_counterexample :
    claimBooleanKind [[("c", Value.vStr "maybe")], [("c", Value.vStr "true")]] "c" = false ∧
    isNullish (getField [("c", Value.vStr "true")] "c") = false ∧
    strContains (lowerStr (jsToString (getField [("c", Value.vStr "true")] "c")))
      (lowerStr "ru") = true ∧
    ([("c", Value.vStr "true")] : Row) ∈
      ([[("c", Value.vStr "maybe")], [("c", Value.vStr "true")]] : List Row) ∧
    applyFilters [[("c", Value.vStr "maybe")], [("c", Value.vStr "true")]] "" [("c", "ru")]
      = [] := by
  decide

/-- C1 (amended): the boolean treatment of a committed column filter is
chosen per row value, not per sample-inferred column kind: a filter entry
keeps a row iff the row's field is non-null and, when the field itself is
boolean-like (native boolean or case-insensitive `"true"`/`"false"`
string), the filter text reads `yes`/`true` (case-insensitive) exactly
when the boolean-coerced value is true; for any other non-null field, the
lower-cased filter text must be a substring of the lower-cased string
representation of the field.  A null/undefined field never matches a
non-empty filter. -/
theorem c1_column_filter_per_value (rows : List Row) (q : String)
    (entries : List (String × String)) (r : Row) :
    r ∈ applyFilters rows q entries ↔
      r ∈ applyGlobal q rows ∧
      ∀ e ∈ entries, trimNonEmpty e.2 = true →
        isNullish (getField r e.1) = false ∧
          (if isBooleanValue (getField r e.1) = true
           then jsToBool (getField r e.1) = filterBoolOf e.2
           else strContains (lowerStr (jsToString (getField r e.1)))
             (lowerStr e.2) = true) := by
  unfold applyFilters applyColumnFilters
  rw [mem_filterChainG]
  refine and_congr_right fun _ => ⟨fun h e he ht => ?_, fun h e he ht => ?_⟩
  · exact columnFilterPred_iff.mp (h e he ht)
  · exact columnFilterPred_iff.mpr (h e he ht)

/-- Closed instance of the amended C1 characterisation. -/
theorem c1_column_filter_per_value_witness :
    ([("b", Value.vStr "TRUE")] : Row) ∈
        applyFilters [[("b", Value.vStr "TRUE")]] "" [("b", "Yes")] ↔
      ([("b", Value.vStr "TRUE")] : Row) ∈ applyGlobal "" [[("b", Value.vStr "TRUE")]] ∧
      ∀ e ∈ [("b", "Yes")], trimNonEmpty e.2 = true →
        isNullish (getField [("b", Value.vStr "TRUE")] e.1) = false ∧
          (if isBooleanValue (getField [("b", Value.vStr "TRUE")] e.1) = true
           then jsToBool (getField [("b", Value.vStr "TRUE")] e.1) = filterBoolOf e.2
           else strContains
             (lowerStr (jsToString (getField [("b", Value.vStr "TRUE")] e.1)))
             (lowerStr e.2) = true) :=
  c1_column_filter_per_value [[("b", Value.vStr "TRUE")]] "" [("b", "Yes")]
    [("b", Value.vStr "TRUE")]

/-! ## C2 -/

theorem setEntry_all (F : List (String × String)) (c v : String)
    (g : String × String → Bool) :
    (setEntry F c v).all g =
      ((F.all fun e => if e.1 == c then g (c, v) else g e) &&
        (F.any (fun e => e.1 == c) || g (c, v))) := by
  unfold setEntry
  by_cases hk : F.any (fun e => e.1 == c) = true
  · rw [if_pos hk, hk, List.all_map]
    simp only [Bool.true_or, Bool.and_true]
    refine all_congr' ?_
    intro e _
    by_cases he : (e.1 == c) = true
    · simp [Function.comp, he]
    · simp [Function.comp, he]
  · have hk' : F.any (fun e => e.1 == c) = false := by
      cases h : F.any (fun e => e.1 == c)
      · rfl
      · exact absurd h hk
    rw [if_neg hk, List.all_append, hk']
    simp only [Bool.false_or, List.all_cons, List.all_nil, Bool.and_true]
    have hcg : (F.all fun e => if e.1 == c then g (c, v) else g e) = F.all g := by
      refine all_congr' ?_
      intro e he
      have : (e.1 == c) = false := by
        rw [List.any_eq_false] at hk'
        have := hk' e he
        cases h : e.1 == c
        · rfl
        · exact absurd h this
      simp [this]
    rw [hcg]

theorem all_mark {ε : Type _} (F : List ε) (k : ε → Bool) (X : Bool) (f : ε → Bool) :
    ((F.all fun e => if k e then X else f e) && (F.any k || X)) =
      ((F.all fun e => if k e then true else f e) && X) := by
  induction F with
  | nil => simp
  | cons e F ih =>
    cases hk : k e
    · simp only [List.all_cons, List.any_cons, hk, Bool.false_or, if_neg Bool.false_ne_true]
      cases hf : f e
      · simp
      · simp only [Bool.true_and]
        exact ih
    · simp only [List.all_cons, List.any_cons, hk, if_pos rfl, Bool.true_or, Bool.and_true]
      cases X
      · simp
      · simp

/-- The preview's predicate for the edited column coincides with the
committed per-column predicate whenever the row's value there is null or
its boolean-likeness agrees with the `isBoolean` flag. -/
theorem ownPred_agrees {column lv : String} {isB : Bool} {r : Row}
    (h : isNullish (getField r column) = true ∨
      isBooleanValue (getField r column) = isB) :
    columnFilterPred column lv r = previewOwnPred column lv isB r := by
  simp only [columnFilterPred, previewOwnPred]
  rcases h with h | h
  · simp [h]
  · cases hn : isNullish (getField r column) <;> simp [h, hn]

/-- The preview's plain substring predicate for another column coincides
with the committed per-column predicate whenever the row's value there is
null or not boolean-like. -/
theorem textPred_agrees {c fv : String} {r : Row}
    (h : isNullish (getField r c) = true ∨ isBooleanValue (getField r c) = false) :
    columnFilterPred c fv r = previewTextPred c fv r := by
  simp only [columnFilterPred, previewTextPred]
  rcases h with h | h
  · simp [h]
  · cases hn : isNullish (getField r c) <;> simp [h, hn]

/-- C2 is refuted as stated: with one row `{flag: true, name: "x"}`,
committed global query `""`, committed filters `{flag: "yes"}` and the
uncommitted text `"x"` being edited for column `"name"`, the committed
pipeline with the replaced filter keeps the row (the `flag` filter takes
the boolean branch), but the live preview applies the other committed
filter `"yes"` as a plain substring match against `"true"` and reports
count 0 instead of 1. -/
theorem c2_claim_counterexample :
    previewCount [[("flag", Value.vBool true), ("name", Value.vStr "x")]] ""
        [("flag", "yes")] "name" "x"
        (booleanColumnFlag [[("flag", Value.vBool true), ("name", Value.vStr "x")]] "name")
      = 0 ∧
    (applyFilters [[("flag", Value.vBool true), ("name", Value.vStr "x")]] ""
        (setEntry [("flag", "yes")] "name" "x")).length = 1 := by
  decide

/-- C2 (amended): the live-preview count equals the length of the
committed filter pipeline with the edited column's filter replaced by the
uncommitted text, provided (a) no other committed filter sits on a column
holding boolean-like values (each row's value there is null or not
boolean-like — the preview applies other filters as plain substring
matches), and (b) the edited column's per-row boolean-likeness agrees
with the `isBoolean` flag the preview receives.  The committed query and
filter map are plain values here, so computing the preview leaves them
unchanged by construction. -/
theorem c2_preview_vs_committed (rows : List Row) (q : String)
    (otherFilters : List (String × String)) (column lv : String) (isB : Bool)
    (hOther : ∀ r ∈ rows, ∀ e ∈ otherFilters, e.1 ≠ column →
      isNullish (getField r e.1) = true ∨ isBooleanValue (getField r e.1) = false)
    (hOwn : ∀ r ∈ rows, isNullish (getField r column) = true ∨
      isBooleanValue (getField r column) = isB) :
    previewCount rows q otherFilters column lv isB =
      (applyFilters rows q (setEntry otherFilters column lv)).length := by
  simp only [previewCount, applyFilters, applyColumnFilters]
  have hsub : ∀ r, r ∈ applyGlobal q rows → r ∈ rows := fun r hr =>
    (mem_applyGlobal.mp hr).1
  rw [filterChainG_eq_filter, filterChainG_eq_filter]
  -- Fold the trailing own-column filter of the preview into a single filter.
  have hpre : (if trimNonEmpty lv = true then
      ((applyGlobal q rows).filter fun r => otherFilters.all fun e =>
        !((e.1 != column) && trimNonEmpty e.2) || previewTextPred e.1 e.2 r).filter
        (previewOwnPred column lv isB)
    else ((applyGlobal q rows).filter fun r => otherFilters.all fun e =>
        !((e.1 != column) && trimNonEmpty e.2) || previewTextPred e.1 e.2 r)) =
      (applyGlobal q rows).filter fun r =>
        (otherFilters.all fun e =>
          !((e.1 != column) && trimNonEmpty e.2) || previewTextPred e.1 e.2 r) &&
        (!trimNonEmpty lv || previewOwnPred column lv isB r) := by
    by_cases ht : trimNonEmpty lv = true
    · rw [if_pos ht, List.filter_filter]
      refine List.filter_congr ?_
      intro r _
      rw [ht]
      simp [Bool.and_comm]
    · have ht' : trimNonEmpty lv = false := by
        cases h : trimNonEmpty lv
        · rfl
        · exact absurd h ht
      rw [if_neg ht, ht']
      refine (List.filter_congr ?_).symm
      intro r _
      simp
  rw [hpre]
  -- Both sides are filters of the same list; show the predicates agree
  -- pointwise on rows of the input.
  have hpt : ∀ r ∈ applyGlobal q rows,
      ((otherFilters.all fun e =>
          !((e.1 != column) && trimNonEmpty e.2) || previewTextPred e.1 e.2 r) &&
        (!trimNonEmpty lv || previewOwnPred column lv isB r)) =
      ((setEntry otherFilters column lv).all fun e =>
        !trimNonEmpty e.2 || columnFilterPred e.1 e.2 r) := by
    intro r hr
    have hrrows := hsub r hr
    rw [setEntry_all]
    have hG : (!trimNonEmpty lv || columnFilterPred column lv r) =
        (!trimNonEmpty lv || previewOwnPred column lv isB r) := by
      rw [ownPred_agrees (hOwn r hrrows)]
    simp only [hG]
    rw [all_mark otherFilters (fun e => e.1 == column)
      (!trimNonEmpty lv || previewOwnPred column lv isB r)
      (fun e => !trimNonEmpty e.2 || columnFilterPred e.1 e.2 r)]
    have hall : (otherFilters.all fun e => if e.1 == column then true
        else !trimNonEmpty e.2 || columnFilterPred e.1 e.2 r) =
        (otherFilters.all fun e =>
          !((e.1 != column) && trimNonEmpty e.2) || previewTextPred e.1 e.2 r) := by
      refine all_congr' ?_
      intro e he
      by_cases hkey : (e.1 == column) = true
      · rw [if_pos hkey]
        have : (e.1 != column) = false := by
          simp only [bne]
          rw [hkey]
          rfl
        rw [this]
        simp
      · have hkey' : (e.1 == column) = false := by
          cases h : e.1 == column
          · rfl
          · exact absurd h hkey
        rw [if_neg hkey]
        have hne : e.1 ≠ column := by
          intro h
          rw [h] at hkey'
          simp at hkey'
        have : (e.1 != column) = true := by
          simp [bne, hkey']
        rw [this]
        rw [textPred_agrees (hOther r hrrows e he hne)]
        simp
    rw [hall]
  rw [List.filter_congr hpt]

/-- Closed instance: the spec's own live-preview example (committed global
query `""`, committed filters `{dome: "Tropical"}`, uncommitted text
`"healthy"` for column `"status"`) satisfies both side conditions and the
preview count equals the jointly applied committed pipeline. -/
theorem c2_preview_vs_committed_witness :
    (∀ r ∈ ([[("dome", Value.vStr "Tropical"), ("status", Value.vStr "healthy")]] :
        List Row), ∀ e ∈ [("dome", "Tropical")], e.1 ≠ "status" →
      isNullish (getField r e.1) = true ∨ isBooleanValue (getField r e.1) = false) ∧
    (∀ r ∈ ([[("dome", Value.vStr "Tropical"), ("status", Value.vStr "healthy")]] :
        List Row), isNullish (getField r "status") = true ∨
      isBooleanValue (getField r "status") = false) ∧
    previewCount [[("dome", Value.vStr "Tropical"), ("status", Value.vStr "healthy")]]
        "" [("dome", "Tropical")] "status" "healthy" false =
      (applyFilters [[("dome", Value.vStr "Tropical"), ("status", Value.vStr "healthy")]]
        "" (setEntry [("dome", "Tropical")] "status" "healthy")).length :=
  ⟨by decide, by decide,
    c2_preview_vs_committed _ "" _ "status" "healthy" false (by decide) (by decide)⟩

/-! ## Sort engine lemmas -/

theorem mergeF_perm {α : Type _} (le : α → α → Bool) :
    ∀ (n : Nat) (xs ys : List α), xs.length + ys.length ≤ n →
      (mergeF le n xs ys).Perm (xs ++ ys) := by
  intro n
  induction n with
  | zero =>
    intro xs ys hlen
    have hx : xs = [] := by
      cases xs
      · rfl
      · simp at hlen
    have hy : ys = [] := by
      cases ys
      · rfl
      · simp at hlen
    subst hx
    subst hy
    exact List.Perm.refl _
  | succ n ih =>
    intro xs ys hlen
    cases xs with
    | nil => simp [mergeF]
    | cons x xs =>
      cases ys with
      | nil => simp [mergeF]
      | cons y ys =>
        simp only [mergeF]
        by_cases hle : le x y = true
        · rw [if_pos hle]
          have h1 : (mergeF le n xs (y :: ys)).Perm (xs ++ y :: ys) := by
            refine ih xs (y :: ys) ?_
            simp only [List.length_cons] at hlen ⊢
            omega
          exact h1.cons x
        · rw [if_neg hle]
          have h1 : (mergeF le n (x :: xs) ys).Perm ((x :: xs) ++ ys) := by
            refine ih (x :: xs) ys ?_
            simp only [List.length_cons] at hlen ⊢
            omega
          exact (h1.cons y).trans List.perm_middle.symm

theorem mergeSortF_perm {α : Type _} (le : α → α → Bool) :
    ∀ (n : Nat) (l : List α), l.length ≤ n → (mergeSortF le n l).Perm l := by
  intro n
  induction n with
  | zero => intro l _; simp [mergeSortF]
  | succ n ih =>
    intro l hlen
    simp only [mergeSortF]
    by_cases hsmall : l.length ≤ 1
    · rw [if_pos hsmall]
    · rw [if_neg hsmall]
      have h2 : 2 ≤ l.length := by omega
      have htake : (l.take (l.length / 2)).length = l.length / 2 := by
        rw [List.length_take]
        omega
      have hdrop : (l.drop (l.length / 2)).length = l.length - l.length / 2 :=
        List.length_drop _ _
      have h1 : (mergeSortF le n (l.take (l.length / 2))).Perm (l.take (l.length / 2)) := by
        refine ih _ ?_
        rw [htake]
        omega
      have h2' : (mergeSortF le n (l.drop (l.length / 2))).Perm (l.drop (l.length / 2)) := by
        refine ih _ ?_
        rw [hdrop]
        omega
      have hm : (mergeF le ((l.take (l.length / 2)).length + (l.drop (l.length / 2)).length)
          (mergeSortF le n (l.take (l.length / 2)))
          (mergeSortF le n (l.drop (l.length / 2)))).Perm
          (mergeSortF le n (l.take (l.length / 2)) ++ mergeSortF le n (l.drop (l.length / 2))) := by
        refine mergeF_perm le _ _ _ ?_
        rw [h1.length_eq, h2'.length_eq]
      refine hm.trans ((h1.append h2').trans ?_)
      rw [List.take_append_drop]

theorem mergeSortBy_perm {α : Type _} (le : α → α → Bool) (l : List α) :
    (mergeSortBy le l).Perm l :=
  mergeSortF_perm le l.length l le_rfl

theorem mergeF_markedLast {α : Type _} {w : α → Bool} {le : α → α → Bool}
    (hw1 : ∀ a b, w a = true → le a b = false)
    (hw2 : ∀ a b, w a = false → w b = true → le a b = true) :
    ∀ (n : Nat) (xs ys : List α), xs.length + ys.length ≤ n →
      MarkedLast w xs → MarkedLast w ys → MarkedLast w (mergeF le n xs ys) := by
  intro n
  induction n with
  | zero =>
    intro xs ys hlen hx hy
    have hxe : xs = [] := by
      cases xs
      · rfl
      · simp at hlen
    have hye : ys = [] := by
      cases ys
      · rfl
      · simp at hlen
    subst hxe
    subst hye
    simp [mergeF, MarkedLast]
  | succ n ih =>
    intro xs ys hlen hx hy
    cases xs with
    | nil => simpa [mergeF] using hy
    | cons x xs =>
      cases ys with
      | nil => simpa [mergeF] using hx
      | cons y ys =>
        simp only [mergeF]
        by_cases hle : le x y = true
        · rw [if_pos hle]
          rw [MarkedLast, List.pairwise_cons]
          constructor
          · intro z _ hwx
            have := hw1 x y hwx
            rw [this] at hle
            cases hle
          · refine ih xs (y :: ys) ?_ (List.pairwise_cons.mp hx).2 hy
            simp only [List.length_cons] at hlen ⊢
            omega
        · rw [if_neg hle]
          have hle' : le x y = false := by
            cases h : le x y
            · rfl
            · exact absurd h hle
          rw [MarkedLast, List.pairwise_cons]
          constructor
          · intro z hz hwy
            have hwx : w x = true := by
              by_contra hcon
              have hwx' : w x = false := by
                cases h : w x
                · rfl
                · exact absurd h hcon
              have := hw2 x y hwx' hwy
              rw [this] at hle'
              cases hle'
            have hz' : z ∈ (x :: xs) ++ ys := by
              refine (mergeF_perm le n (x :: xs) ys ?_).mem_iff.mp hz
              simp only [List.length_cons] at hlen ⊢
              omega
            rcases List.mem_append.mp hz' with hz1 | hz2
            · rcases List.mem_cons.mp hz1 with rfl | hz1'
              · exact hwx
              · exact (List.pairwise_cons.mp hx).1 z hz1' hwx
            · exact (List.pairwise_cons.mp hy).1 z hz2 hwy
          · refine ih (x :: xs) ys ?_ hx (List.pairwise_cons.mp hy).2
            simp only [List.length_cons] at hlen ⊢
            omega

theorem mergeSortF_markedLast {α : Type _} {w : α → Bool} {le : α → α → Bool}
    (hw1 : ∀ a b, w a = true → le a b = false)
    (hw2 : ∀ a b, w a = false → w b = true → le a b = true) :
    ∀ (n : Nat) (l : List α), l.length ≤ n → MarkedLast w (mergeSortF le n l) := by
  intro n
  induction n with
  | zero =>
    intro l hlen
    have : l = [] := by
      cases l
      · rfl
      · simp at hlen
    subst this
    simp [mergeSortF, MarkedLast]
  | succ n ih =>
    intro l hlen
    simp only [mergeSortF]
    by_cases hsmall : l.length ≤ 1
    · rw [if_pos hsmall]
      cases l with
      | nil => simp [MarkedLast]
      | cons a l' =>
        cases l' with
        | nil => simp [MarkedLast]
        | cons b l'' => simp at hsmall
    · rw [if_neg hsmall]
      have h2 : 2 ≤ l.length := by omega
      have htake : (l.take (l.length / 2)).length = l.length / 2 := by
        rw [List.length_take]
        omega
      have hdrop : (l.drop (l.length / 2)).length = l.length - l.length / 2 :=
        List.length_drop _ _
      refine mergeF_markedLast hw1 hw2 _ _ _ ?_ (ih _ ?_) (ih _ ?_)
      · rw [(mergeSortF_perm le n _ (by rw [htake]; omega)).length_eq,
          (mergeSortF_perm le n _ (by rw [hdrop]; omega)).length_eq]
      · rw [htake]
        omega
      · rw [hdrop]
        omega

/-- The comparator orders a row with a null/undefined sort-column value
strictly after everything (returns 1). -/
theorem rowCompare_null_left {lc : String → String → Int} {col : String}
    {dir : Dir} {a b : Row} (h : isNullish (getField a col) = true) :
    rowCompare lc col dir a b = 1 := by
  simp only [rowCompare, h]
  rfl

/-- The comparator orders a non-null row strictly before a null-valued
one (returns -1). -/
theorem rowCompare_null_right {lc : String → String → Int} {col : String}
    {dir : Dir} {a b : Row} (ha : isNullish (getField a col) = false)
    (hb : isNullish (getField b col) = true) :
    rowCompare lc col dir a b = -1 := by
  simp only [rowCompare, ha, hb]
  rfl

/-! ## C6 -/

/-- C6: for every locale comparison, sort state and row set, `applySort`
returns a permutation of its input, and whenever a sort column is active,
every row whose value in that column is null/undefined comes after every
row with a non-null value, in either direction. -/
theorem c6_applySort_perm_nulls_last (lc : String → String → Int)
    (cfg : Option (String × Dir)) (rows : List Row) :
    (applySort lc cfg rows).Perm rows ∧
    ∀ col dir, cfg = some (col, dir) →
      MarkedLast (fun r => isNullish (getField r col)) (applySort lc cfg rows) := by
  cases cfg with
  | none =>
    refine ⟨List.Perm.refl _, ?_⟩
    intro col dir h
    cases h
  | some cd =>
    obtain ⟨c, d⟩ := cd
    constructor
    · exact mergeSortBy_perm _ rows
    · intro col dir h
      rw [Option.some.injEq, Prod.mk.injEq] at h
      obtain ⟨rfl, rfl⟩ := h
      refine mergeSortF_markedLast ?_ ?_ _ _ le_rfl
      · intro a b ha
        rw [rowCompare_null_left ha]
        rfl
      · intro a b ha hb
        rw [rowCompare_null_right ha hb]
        rfl

/-- Closed instance of C6 with an active sort column. -/
theorem c6_applySort_perm_nulls_last_witness :
    (applySort lcDefault (some ("a", Dir.desc))
        [[("a", Value.vNull)], [("a", Value.vNum 1)]]).Perm
      [[("a", Value.vNull)], [("a", Value.vNum 1)]] ∧
    ∀ col dir, (some ("a", Dir.desc) : Option (String × Dir)) = some (col, dir) →
      MarkedLast (fun r => isNullish (getField r col))
        (applySort lcDefault (some ("a", Dir.desc))
          [[("a", Value.vNull)], [("a", Value.vNum 1)]]) :=
  c6_applySort_perm_nulls_last lcDefault (some ("a", Dir.desc))
    [[("a", Value.vNull)], [("a", Value.vNum 1)]]

/-! ## C7 -/

theorem decEqB_eq_false_of_lt {x y : DecNum} (h : decLtB x y = true) :
    decEqB x y = false := by
  unfold decLtB at h
  unfold decEqB
  rw [decide_eq_true_eq] at h
  simp only [beq_eq_false_iff_ne, ne_eq]
  omega

theorem decEqB_eq_false_of_gt {x y : DecNum} (h : decLtB y x = true) :
    decEqB x y = false := by
  unfold decLtB at h
  unfold decEqB
  rw [decide_eq_true_eq] at h
  simp only [beq_eq_false_iff_ne, ne_eq]
  omega

theorem decLtB_asymm {x y : DecNum} (h : decLtB y x = true) :
    decLtB x y = false := by
  unfold decLtB at h ⊢
  rw [decide_eq_true_eq] at h
  rw [decide_eq_false_iff_not]
  omega

/-- C7: the quantity comparator compares numerically whenever both sides'
lenient numeric extraction succeeds (breaking exact numeric ties with the
locale comparison), puts the numeric side first ascending and last
descending when exactly one side parses, falls back to the locale
comparison (direction-flipped when descending) when neither parses, and
sorts `["6+", "10", "5", "unknown"]` ascending to
`["5", "6+", "10", "unknown"]`. -/
theorem c7_quantity_comparator (lc : String → String → Int) :
    (∀ a b x y, extractNumber (qtyStr a) = some x → extractNumber (qtyStr b) = some y →
      (decEqB x y = true → ∀ dir, compareQtyValues lc a b dir = lc (qtyStr a) (qtyStr b)) ∧
      (decLtB x y = true → compareQtyValues lc a b Dir.asc < 0 ∧
        0 < compareQtyValues lc a b Dir.desc) ∧
      (decLtB y x = true → 0 < compareQtyValues lc a b Dir.asc ∧
        compareQtyValues lc a b Dir.desc < 0)) ∧
    (∀ a b x, extractNumber (qtyStr a) = some x → extractNumber (qtyStr b) = none →
      compareQtyValues lc a b Dir.asc = -1 ∧ compareQtyValues lc a b Dir.desc = 1) ∧
    (∀ a b y, extractNumber (qtyStr a) = none → extractNumber (qtyStr b) = some y →
      compareQtyValues lc a b Dir.asc = 1 ∧ compareQtyValues lc a b Dir.desc = -1) ∧
    (∀ a b, extractNumber (qtyStr a) = none → extractNumber (qtyStr b) = none →
      compareQtyValues lc a b Dir.asc = lc (qtyStr a) (qtyStr b) ∧
      compareQtyValues lc a b Dir.desc = lc (qtyStr b) (qtyStr a)) ∧
    mergeSortBy (fun u v => compareQtyValues lcDefault u v Dir.asc ≤ 0)
      [Value.vStr "6+", Value.vStr "10", Value.vStr "5", Value.vStr "unknown"] =
      [Value.vStr "5", Value.vStr "6+", Value.vStr "10", Value.vStr "unknown"] := by
  refine ⟨?_, ?_, ?_, ?_, by decide⟩
  · intro a b x y h1 h2
    simp only [compareQtyValues, h1, h2]
    refine ⟨fun hEq dir => by rw [hEq]; simp, fun hLt => ?_, fun hGt => ?_⟩
    · rw [decEqB_eq_false_of_lt hLt, hLt, decLtB_asymm hLt]
      simp
    · rw [decEqB_eq_false_of_gt hGt, decLtB_asymm hGt, hGt]
      simp
  · intro a b x h1 h2
    simp only [compareQtyValues, h1, h2]
    simp
  · intro a b y h1 h2
    simp only [compareQtyValues, h1, h2]
    simp
  · intro a b h1 h2
    simp only [compareQtyValues, h1, h2]
    simp

/-- Closed instance of C7 with the concrete code-unit locale order. -/
theorem c7_quantity_comparator_witness :
    (∀ a b x y, extractNumber (qtyStr a) = some x → extractNumber (qtyStr b) = some y →
      (decEqB x y = true → ∀ dir,
        compareQtyValues lcDefault a b dir = lcDefault (qtyStr a) (qtyStr b)) ∧
      (decLtB x y = true → compareQtyValues lcDefault a b Dir.asc < 0 ∧
        0 < compareQtyValues lcDefault a b Dir.desc) ∧
      (decLtB y x = true → 0 < compareQtyValues lcDefault a b Dir.asc ∧
        compareQtyValues lcDefault a b Dir.desc < 0)) ∧
    (∀ a b x, extractNumber (qtyStr a) = some x → extractNumber (qtyStr b) = none →
      compareQtyValues lcDefault a b Dir.asc = -1 ∧
        compareQtyValues lcDefault a b Dir.desc = 1) ∧
    (∀ a b y, extractNumber (qtyStr a) = none → extractNumber (qtyStr b) = some y →
      compareQtyValues lcDefault a b Dir.asc = 1 ∧
        compareQtyValues lcDefault a b Dir.desc = -1) ∧
    (∀ a b, extractNumber (qtyStr a) = none → extractNumber (qtyStr b) = none →
      compareQtyValues lcDefault a b Dir.asc = lcDefault (qtyStr a) (qtyStr b) ∧
      compareQtyValues lcDefault a b Dir.desc = lcDefault (qtyStr b) (qtyStr a)) ∧
    mergeSortBy (fun u v => compareQtyValues lcDefault u v Dir.asc ≤ 0)
      [Value.vStr "6+", Value.vStr "10", Value.vStr "5", Value.vStr "unknown"] =
      [Value.vStr "5", Value.vStr "6+", Value.vStr "10", Value.vStr "unknown"] :=
  c7_quantity_comparator lcDefault

/-! ## C8 -/

theorem pages_flatten (P : Nat) (rows : List Row) (n : Nat) :
    ((List.range n).map fun j => paginateWindow P j rows).flatten =
      rows.take (n * P) := by
  induction n with
  | zero => simp
  | succ n ih =>
    rw [List.range_succ, List.map_append, List.flatten_append, ih]
    simp only [List.map_cons, List.map_nil, List.flatten_cons, List.flatten_nil,
      List.append_nil]
    rw [paginateWindow, Nat.succ_mul, List.take_add]

/-- C8: the pagination window is exactly the slice
`rows[i*P : (i+1)*P]`, the total page count is the ceiling of
`|rows| / P`, an out-of-range page index yields the empty slice, and
concatenating the pages in order reproduces the rows exactly. -/
theorem c8_pagination (P i : Nat) (rows : List Row) (hP : 0 < P) :
    paginateWindow P i rows = (rows.take ((i + 1) * P)).drop (i * P) ∧
    totalPagesOf P rows = ceilDivSpec rows.length P ∧
    (totalPagesOf P rows ≤ i → paginateWindow P i rows = []) ∧
    ((List.range (totalPagesOf P rows)).map fun j => paginateWindow P j rows).flatten
      = rows := by
  refine ⟨?_, ?_, ?_, ?_⟩
  · rw [paginateWindow, List.drop_take]
    congr 1
    have h3 : (i + 1) * P = i * P + P := by ring
    rw [h3, Nat.add_sub_cancel_left]
  · unfold totalPagesOf ceilDivSpec
    have hdm := Nat.div_add_mod rows.length P
    have hmod : rows.length % P < P := Nat.mod_lt _ hP
    by_cases hr : rows.length % P = 0
    · rw [if_pos hr]
      have h1 : rows.length + P - 1 = P * (rows.length / P) + (P - 1) := by omega
      have hlt : (P - 1) / P = 0 := Nat.div_eq_of_lt (by omega)
      rw [h1, Nat.mul_add_div hP, hlt, Nat.add_zero]
    · rw [if_neg hr]
      have h2 : P * (rows.length / P + 1) = P * (rows.length / P) + P := by ring
      have h1 : rows.length + P - 1 =
          P * (rows.length / P + 1) + (rows.length % P - 1) := by omega
      have hlt : (rows.length % P - 1) / P = 0 := Nat.div_eq_of_lt (by omega)
      rw [h1, Nat.mul_add_div hP, hlt, Nat.add_zero]
  · intro hle
    unfold totalPagesOf at hle
    have h2 : rows.length + P - 1 < (i + 1) * P := by
      by_contra hcon
      push_neg at hcon
      have : i + 1 ≤ (rows.length + P - 1) / P := by
        rw [Nat.le_div_iff_mul_le hP]
        exact hcon
      omega
    have h3 : (i + 1) * P = i * P + P := by ring
    have hlen : rows.length ≤ i * P := by omega
    rw [paginateWindow, List.drop_eq_nil_of_le hlen, List.take_nil]
  · rw [pages_flatten]
    refine List.take_of_length_le ?_
    unfold totalPagesOf
    have hdm := Nat.div_add_mod (rows.length + P - 1) P
    have hmod : (rows.length + P - 1) % P < P := Nat.mod_lt _ hP
    have hcomm : (rows.length + P - 1) / P * P = P * ((rows.length + P - 1) / P) :=
      Nat.mul_comm _ _
    omega

/-- Closed instance of C8 at page size 50 on a one-row store. -/
theorem c8_pagination_witness :
    (0 < ITEMS_PER_PAGE) ∧
    (paginateWindow ITEMS_PER_PAGE 0 [[("a", Value.vNum 1)]] =
      (([[("a", Value.vNum 1)]] : List Row).take ((0 + 1) * ITEMS_PER_PAGE)).drop
        (0 * ITEMS_PER_PAGE) ∧
    totalPagesOf ITEMS_PER_PAGE [[("a", Value.vNum 1)]] =
      ceilDivSpec ([[("a", Value.vNum 1)]] : List Row).length ITEMS_PER_PAGE ∧
    (totalPagesOf ITEMS_PER_PAGE [[("a", Value.vNum 1)]] ≤ 0 →
      paginateWindow ITEMS_PER_PAGE 0 [[("a", Value.vNum 1)]] = []) ∧
    ((List.range (totalPagesOf ITEMS_PER_PAGE [[("a", Value.vNum 1)]])).map
        fun j => paginateWindow ITEMS_PER_PAGE j [[("a", Value.vNum 1)]]).flatten
      = [[("a", Value.vNum 1)]]) :=
  ⟨by decide, c8_pagination ITEMS_PER_PAGE 0 [[("a", Value.vNum 1)]] (by decide)⟩

/-! ## C9 -/

/-- C9: starting from any sort state in which `col` is not the sorted
column, three successive toggles of `col` pass through ascending, then
descending, then the cleared (no-sort) state; and a toggle of a column
different from the current one always yields that column ascending. -/
theorem c9_sort_toggle_cycle (cur : Option (String × Dir)) (col : String)
    (h : ∀ c d, cur = some (c, d) → c ≠ col) :
    handleSortCfg cur col = some (col, Dir.asc) ∧
    handleSortCfg (handleSortCfg cur col) col = some (col, Dir.desc) ∧
    handleSortCfg (handleSortCfg (handleSortCfg cur col) col) col = none := by
  have h1 : handleSortCfg cur col = some (col, Dir.asc) := by
    cases cur with
    | none => rfl
    | some cd =>
      obtain ⟨c, d⟩ := cd
      have hne : c ≠ col := h c d rfl
      simp [handleSortCfg, hne]
  refine ⟨h1, ?_, ?_⟩ <;> rw [h1] <;> simp [handleSortCfg]

/-- Closed instance of the C9 toggle cycle starting from a different
sorted column. -/
theorem c9_sort_toggle_cycle_witness :
    (∀ c d, (some ("dome", Dir.desc) : Option (String × Dir)) = some (c, d) →
      c ≠ "name") ∧
    (handleSortCfg (some ("dome", Dir.desc)) "name" = some ("name", Dir.asc) ∧
    handleSortCfg (handleSortCfg (some ("dome", Dir.desc)) "name") "name" =
      some ("name", Dir.desc) ∧
    handleSortCfg (handleSortCfg (handleSortCfg (some ("dome", Dir.desc)) "name")
      "name") "name" = none) := by
  have hdummy : ∀ c d, (some ("dome", Dir.desc) : Option (String × Dir)) = some (c, d) →
      c ≠ "name" := by
    intro c d hcd
    rw [Option.some.injEq, Prod.mk.injEq] at hcd
    rw [← hcd.1]
    decide
  exact ⟨hdummy, c9_sort_toggle_cycle (some ("dome", Dir.desc)) "name" hdummy⟩

/-! ## C10 -/

/-- C10: every state transition that changes the filter state (global
query, per-column filter set or cleared, reset-all), the sort state or the
scope (dome selection) leaves the pagination on page 0. -/
theorem c10_page_reset (s : GridState) (a : Action)
    (h : changesFilterSortOrScope a = true) :
    (step s a).currentPage = 0 := by
  cases a <;> simp [step] <;> cases h

/-- Closed instance of the C10 page reset from page 7. -/
theorem c10_page_reset_witness :
    changesFilterSortOrScope (Action.setQuery "fern") = true ∧
    (step ⟨"", [], none, 7, "Tropical"⟩ (Action.setQuery "fern")).currentPage = 0 :=
  ⟨rfl, c10_page_reset ⟨"", [], none, 7, "Tropical"⟩ (Action.setQuery "fern") rfl⟩

/-! ## Visibility preference lemmas -/

theorem lookup_eq_none_of_hasEntry_false {m : List (String × Bool)} {c : String}
    (h : hasEntry m c = false) : List.lookup c m = none := by
  induction m with
  | nil => rfl
  | cons e m ih =>
    obtain ⟨k, b⟩ := e
    simp only [hasEntry, List.any_cons, Bool.or_eq_false_iff] at h
    have hne : (c == k) = false := by
      refine beq_eq_false_iff_ne.mpr fun hck => ?_
      rw [hck] at h
      simp at h
    rw [List.lookup_cons, hne]
    exact ih (by simp [hasEntry, h.2])

theorem reconcile_vis_mono (columns : List String) :
    ∀ (acc : List String × List (String × Bool)) (x : String), x ∈ acc.1 →
      x ∈ (columns.foldl reconcileStep acc).1 := by
  induction columns with
  | nil => intro acc x hx; exact hx
  | cons d cols ih =>
    intro acc x hx
    rw [List.foldl_cons]
    refine ih _ x ?_
    simp only [reconcileStep]
    by_cases h : storedShown acc.2 d = true
    · rw [if_pos h]
      exact List.mem_append_left _ hx
    · rw [if_neg h]
      exact hx

theorem reconcile_lookup_mono (columns : List String) :
    ∀ (acc : List String × List (String × Bool)) (c : String) (b : Bool),
      List.lookup c acc.2 = some b →
      List.lookup c (columns.foldl reconcileStep acc).2 = some b := by
  induction columns with
  | nil => intro acc c b h; exact h
  | cons d cols ih =>
    intro acc c b h
    rw [List.foldl_cons]
    refine ih _ c b ?_
    simp only [reconcileStep]
    by_cases hh : hasEntry acc.2 d = true
    · rw [if_pos hh]
      exact h
    · rw [if_neg hh, List.lookup_append, h]
      rfl

theorem reconcile_missing (columns : List String) :
    ∀ (acc : List String × List (String × Bool)) (c : String), c ∈ columns →
      hasEntry acc.2 c = false →
      c ∈ (columns.foldl reconcileStep acc).1 ∧
      List.lookup c (columns.foldl reconcileStep acc).2 = some true := by
  induction columns with
  | nil => intro acc c hc; cases hc
  | cons d cols ih =>
    intro acc c hc hm
    rw [List.foldl_cons]
    by_cases hcd : c = d
    · subst hcd
      have hnone : List.lookup c acc.2 = none := lookup_eq_none_of_hasEntry_false hm
      have hshow : storedShown acc.2 c = true := by
        simp [storedShown, hnone]
      have hstep : reconcileStep acc c = (acc.1 ++ [c], acc.2 ++ [(c, true)]) := by
        simp [reconcileStep, hshow, hm]
      rw [hstep]
      constructor
      · exact reconcile_vis_mono cols _ c (by simp)
      · refine reconcile_lookup_mono cols _ c true ?_
        rw [List.lookup_append, hnone]
        simp
    · rcases List.mem_cons.mp hc with rfl | hc'
      · exact absurd rfl hcd
      refine ih _ c hc' ?_
      simp only [reconcileStep]
      by_cases hh : hasEntry acc.2 d = true
      · rw [if_pos hh]
        exact hm
      · rw [if_neg hh]
        have hdc : (d == c) = false := beq_eq_false_iff_ne.mpr (Ne.symm hcd)
        simp only [hasEntry, List.any_append, List.any_cons, List.any_nil, hdc]
        simp only [hasEntry] at hm
        simp [hm]

theorem lookup_legacy_map (cols : List String) (c : String) :
    List.lookup c (cols.map fun x => (x, true)) =
      (if c ∈ cols then some true else none) := by
  induction cols with
  | nil => simp
  | cons d cols ih =>
    by_cases h : c = d
    · subst h
      simp [List.lookup_cons]
    · have hne : (c == d) = false := beq_eq_false_iff_ne.mpr h
      simp only [List.map_cons, List.lookup_cons, hne, ih, List.mem_cons]
      simp [h]

theorem hasEntry_legacy_map (cols : List String) (c : String) :
    c ∉ cols → hasEntry (cols.map fun x => (x, true)) c = false := by
  induction cols with
  | nil => intro _; rfl
  | cons d cols ih =>
    intro h
    have hne : c ≠ d := fun hh => h (by simp [hh])
    have hnotin : c ∉ cols := fun hh => h (by simp [hh])
    have hd : (d == c) = false := beq_eq_false_iff_ne.mpr (Ne.symm hne)
    simp only [List.map_cons, hasEntry, List.any_cons, hd, Bool.false_or]
    exact ih hnotin

/-! ## C3 -/

/-- C3 is refuted as stated: migrating the legacy value `["name"]` with
current columns `["name", "qty"]` writes back the map `{name: true}` with
no entry at all for `"qty"` (not `shown = false`), and the subsequent
first-load reconciliation persists `"qty"` as `true`, never as `false`. -/
theorem c3_claim_counterexample :
    (migrateStored (StoredVis.legacyArr ["name"])).2 = some [("name", true)] ∧
    List.lookup "qty" (migrateStored (StoredVis.legacyArr ["name"])).1 = none ∧
    List.lookup "qty"
      (loadVisibility (StoredVis.legacyArr ["name"]) ["name", "qty"]).2 = some true ∧
    List.lookup "qty"
      (loadVisibility (StoredVis.legacyArr ["name"]) ["name", "qty"]).2 ≠ some false := by
  decide

/-- C3 (amended): on first read, a legacy bare array is upgraded to the
object-map format mapping exactly the listed columns to `shown = true` —
columns not listed are simply absent from the migrated map — and the
migrated map is persisted at once in the new format; a current column not
in the legacy list is then recorded (and persisted) as `shown = true`,
not `false`, by the reconciliation pass. -/
theorem c3_legacy_migration (cols : List String) (c : String)
    (columns : List String) :
    List.lookup c (migrateStored (StoredVis.legacyArr cols)).1 =
      (if c ∈ cols then some true else none) ∧
    (migrateStored (StoredVis.legacyArr cols)).2 =
      some (migrateStored (StoredVis.legacyArr cols)).1 ∧
    (c ∈ columns → c ∉ cols →
      List.lookup c (loadVisibility (StoredVis.legacyArr cols) columns).2
        = some true) := by
  refine ⟨lookup_legacy_map cols c, rfl, fun hc hn => ?_⟩
  exact (reconcile_missing columns ([], (migrateStored (StoredVis.legacyArr cols)).1)
    c hc (hasEntry_legacy_map cols c hn)).2

/-- Closed instance of the amended C3 on the counterexample's input. -/
theorem c3_legacy_migration_witness :
    List.lookup "qty" (migrateStored (StoredVis.legacyArr ["name"])).1 =
      (if "qty" ∈ ["name"] then some true else none) ∧
    (migrateStored (StoredVis.legacyArr ["name"])).2 =
      some (migrateStored (StoredVis.legacyArr ["name"])).1 ∧
    ("qty" ∈ ["name", "qty"] → "qty" ∉ ["name"] →
      List.lookup "qty"
        (loadVisibility (StoredVis.legacyArr ["name"]) ["name", "qty"]).2
        = some true) :=
  c3_legacy_migration ["name"] "qty" ["name", "qty"]

/-! ## C4 -/

/-- C4: any current column absent from the stored visibility map ends up
visible after the first-load reconciliation and is recorded in the
persisted map as `shown = true`; and, concretely, loading the legacy value
`["name", "dome"]` against current columns `["name", "dome", "qty"]`
yields all three columns visible with the persisted object map
`{name: true, dome: true, qty: true}`. -/
theorem c4_missing_columns_default_visible :
    (∀ (stored : StoredVis) (columns : List String) (c : String),
      c ∈ columns → hasEntry (migrateStored stored).1 c = false →
      c ∈ (loadVisibility stored columns).1 ∧
      List.lookup c (loadVisibility stored columns).2 = some true) ∧
    loadVisibility (StoredVis.legacyArr ["name", "dome"]) ["name", "dome", "qty"] =
      (["name", "dome", "qty"], [("name", true), ("dome", true), ("qty", true)]) := by
  constructor
  · intro stored columns c hc hm
    exact reconcile_missing columns ([], (migrateStored stored).1) c hc hm
  · decide

/-- Closed instance of C4's general part: a column missing from a stored
object map defaults to visible and is persisted as `true`. -/
theorem c4_missing_columns_default_visible_witness :
    hasEntry (migrateStored (StoredVis.objMap [("x", false)])).1 "y" = false ∧
    ("y" ∈ (loadVisibility (StoredVis.objMap [("x", false)]) ["x", "y"]).1 ∧
      List.lookup "y"
        (loadVisibility (StoredVis.objMap [("x", false)]) ["x", "y"]).2 = some true) :=
  ⟨by decide, c4_missing_columns_default_visible.1 (StoredVis.objMap [("x", false)])
    ["x", "y"] "y" (by decide) (by decide)⟩

end PlantGrid
